import Mathlib

/-!
Verification of the data-cleaning and correlation-ranking logic of `src/main.py`
(a pandas/streamlit data-exploration page).

The embedding models:
  * CSV cells (`Val`): a parsed cell is a number, a string, or missing (NaN).
  * a parsed table (`Table`): ordered columns, each a name with a cell list
    (the result of `pd.read_csv`; `read_csv` produces unique column labels).
  * `load_data` (main.py lines 17-43): drop rows whose target cell is NaN,
    keep numeric-dtype columns, drop low-cardinality columns outside the
    allow-list, filter rows by target range (0, 50).  A pandas `KeyError`
    (raised when a required column label is absent) is modelled by
    `LoadError`, tagged with the statement that raises it.
  * `corr_matrix` / `fat_corr` / `fat_corr_abs` (lines 60-68): Pearson
    correlation over pairwise-complete observations, with exact rational
    sums and a real square root in the denominator; a zero-variance pair
    yields `none` (pandas NaN).  `sort_values(ascending=False)` places NaN
    last and is modelled as a stable descending sort (numpy's introsort is
    insertion sort, hence stable, on the small arrays considered here); the
    stable sort is realised as an insertion sort on position-tagged entries.
  * `runMain` (lines 52-119): the try/except driver, with its four visible
    outcomes.
-/

/-- A parsed CSV cell: a number, a non-numeric string, or missing (NaN). -/
inductive Val where
  | num (q : ℚ)
  | str (s : String)
  | na
deriving DecidableEq

/-- A parsed table: ordered columns, each a (name, cells) pair. -/
abbrev Table := List (String × List Val)

/-- A numeric table: cells are numbers or missing. -/
abbrev NumTable := List (String × List (Option ℚ))

/-- Errors raised inside `load_data`, tagged by the raising statement:
`dropnaKeyError` is the `KeyError` from `df.dropna(subset=['체지방율'])`
(line 27) when the column is absent, `filterKeyError` the `KeyError` from
`numeric_df['체지방율']` (line 41). -/
inductive LoadError where
  | dropnaKeyError
  | filterKeyError
deriving DecidableEq

/-- The fixed target column name (body-fat percentage). -/
def targetName : String := "체지방율"

/-- The allow-list of line 37: age, height, weight. -/
def allowNames : List String := ["나이", "신장", "체중"]

/-- A cell counts as present for `dropna` iff it is not NaN. -/
def isPresent : Val → Bool
  | .na => false
  | _ => true

/-- A column has numeric dtype iff every parsed cell is a number or NaN
(`select_dtypes(include=np.number)`, dtypes fixed at `read_csv` time). -/
def isNumVal : Val → Bool
  | .str _ => false
  | _ => true

/-- View a cell of a numeric-dtype column as an optional rational. -/
def toONum : Val → Option ℚ
  | .num q => some q
  | _ => none

/-- The row predicate of line 41: `(x > 0) & (x < 50)`; NaN compares false. -/
def inRange : Option ℚ → Bool
  | some q => decide (0 < q) && decide (q < 50)
  | none => false

/-- Keep the elements of `l` at the positions where `mask` is `true`
(pandas boolean-mask row selection). -/
def maskFilter (mask : List Bool) (l : List α) : List α :=
  (mask.zip l).filterMap (fun p => if p.1 then some p.2 else none)

/-- Number of distinct values of a column, `len(df[col].unique())`;
pandas counts NaN as one distinct value. -/
def distinctCount (l : List (Option ℚ)) : ℕ :=
  l.dedup.length

/-- The column-survival test of lines 37-38: a column is dropped iff its
distinct-value count is `< 10` and its name is not allow-listed. -/
def keepCol (c : String × List (Option ℚ)) : Bool :=
  decide (¬ (distinctCount c.2 < 10 ∧ c.1 ∉ allowNames))

/-- Lines 23-34: after `dropna(subset=['체지방율'])` (row mask from the first
column labelled by the target), restrict to numeric-dtype columns.  Empty when
the target label is absent (in `load_data` that case errors out first). -/
def numericDropped (t : Table) : NumTable :=
  match t.lookup targetName with
  | none => []
  | some tvals =>
    (t.filter (fun c => c.2.all isNumVal)).map
      (fun c => (c.1, maskFilter (tvals.map isPresent) (c.2.map toONum)))

/-- Lines 37-38: drop low-cardinality columns outside the allow-list. -/
def keptCols (t : Table) : NumTable :=
  (numericDropped t).filter keepCol

/-- `load_data` (lines 17-43): the cleaning pipeline.  The two `match`es are
the two statements that can raise a `KeyError`: `dropna(subset=[...])` on a
missing label, and the target-range row filter of line 41 once the target
column has been dropped as low-cardinality (or was non-numeric). -/
def load_data (t : Table) : Except LoadError NumTable :=
  match t.lookup targetName with
  | none => .error .dropnaKeyError
  | some _ =>
    match (keptCols t).lookup targetName with
    | none => .error .filterKeyError
    | some tvals2 =>
      .ok ((keptCols t).map (fun c => (c.1, maskFilter (tvals2.map inRange) c.2)))

/-- Pairwise-complete observations: the rows where both cells are numbers
(pandas `DataFrame.corr` drops, per column pair, the rows where either value
is NaN). -/
def obsPairs : List (Option ℚ) → List (Option ℚ) → List (ℚ × ℚ)
  | [], _ => []
  | _ :: _, [] => []
  | some a :: xs, some b :: ys => (a, b) :: obsPairs xs ys
  | some _ :: xs, none :: ys => obsPairs xs ys
  | none :: xs, _ :: ys => obsPairs xs ys

/-- Mean of a rational list (0 for the empty list, as 0/0 = 0). -/
def lmean (l : List ℚ) : ℚ :=
  l.sum / l.length

/-- Sum of products of deviations from the mean (the Pearson numerator; the
1/(n-1) covariance normalisation cancels between numerator and denominator). -/
def covF (u v : List ℚ) : ℚ :=
  (List.zipWith (fun a b => (a - lmean u) * (b - lmean v)) u v).sum

/-- Sum of squared deviations from the mean (unnormalised variance). -/
def varF (u : List ℚ) : ℚ :=
  covF u u

/-- Pearson correlation of two columns over pairwise-complete observations
(line 60, `data.corr()` entrywise).  `none` models pandas NaN: the
coefficient is undefined when either column has zero variance on the common
rows (this covers the 0- and 1-row cases). -/
noncomputable def pearson (xs ys : List (Option ℚ)) : Option ℝ :=
  let ps := obsPairs xs ys
  let u := ps.map Prod.fst
  let v := ps.map Prod.snd
  if varF u = 0 ∨ varF v = 0 then none
  else some ((covF u v : ℝ) / (Real.sqrt (varF u : ℝ) * Real.sqrt (varF v : ℝ)))

/-- Line 60: the full pairwise correlation matrix of the cleaned table,
keyed by column name in table order. -/
noncomputable def corr_matrix (c : NumTable) : List (String × List (String × Option ℝ)) :=
  c.map (fun x => (x.1, c.map (fun y => (y.1, pearson x.2 y.2))))

/-- The matrix entry for a pair of column names (first occurrence of each
label), `corr_matrix[X][Y]`. -/
noncomputable def matEntry (c : NumTable) (X Y : String) : Option (Option ℝ) :=
  ((corr_matrix c).lookup X).bind (fun row => row.lookup Y)

/-- Unnormalised variance of the named column's present values. -/
def varAt (c : NumTable) (X : String) : ℚ :=
  varF (((c.lookup X).getD []).filterMap id)

/-- Strict key order used by `sort_values(ascending=False)`: larger defined
values come first and every defined value precedes NaN (`na_position` is
`'last'`). -/
def keyLt : Option ℝ → Option ℝ → Prop
  | some x, some y => y < x
  | some _, none => True
  | none, _ => False

/-- Key equivalence: equal defined values, or both NaN. -/
def keyEqv : Option ℝ → Option ℝ → Prop
  | some x, some y => x = y
  | none, none => True
  | _, _ => False

/-- Non-strict descending key order (NaN last). -/
def keyLe (a b : Option ℝ) : Prop :=
  keyLt a b ∨ keyEqv a b

/-- Order on position-tagged series entries: by key, ties by original
position — exactly the order computed by a stable descending sort. -/
def sRel (a b : ℕ × (String × Option ℝ)) : Prop :=
  keyLt a.2.2 b.2.2 ∨ (keyEqv a.2.2 b.2.2 ∧ a.1 ≤ b.1)

noncomputable instance : DecidableRel sRel :=
  fun _ _ => Classical.dec _

/-- `Series.sort_values(ascending=False)`: stable descending sort with NaN
last, realised by sorting position-tagged entries by `sRel`. -/
noncomputable def sortSeries (s : List (String × Option ℝ)) : List (String × Option ℝ) :=
  (((List.range s.length).zip s).insertionSort sRel).map Prod.snd

/-- Line 64's series `corr_matrix['체지방율']`: the target's row of the
matrix (empty if the label is absent; the caller checks first). -/
noncomputable def targetRow (c : NumTable) : List (String × Option ℝ) :=
  ((corr_matrix c).lookup targetName).getD []

/-- Line 64: `fat_corr = corr_matrix['체지방율'].sort_values(ascending=False)`. -/
noncomputable def fat_corr (c : NumTable) : List (String × Option ℝ) :=
  sortSeries (targetRow c)

/-- Take absolute values of a series entry (`Series.abs()`; NaN stays NaN). -/
def absEnt (p : String × Option ℝ) : String × Option ℝ :=
  (p.1, p.2.map (fun x => |x|))

/-- Lines 65-68: `fat_corr.abs().sort_values(ascending=False)` followed by
`.drop('체지방율')` — the Ranking. -/
noncomputable def fat_corr_abs (c : NumTable) : List (String × Option ℝ) :=
  (sortSeries ((fat_corr c).map absEnt)).filter (fun p => p.1 != targetName)

/-- The user-visible outcomes of the page driver (lines 52-119): the success
banner (with the strongest correlate's name), the two `st.error` branches of
lines 111 and 113, the `FileNotFoundError` branch, and the final generic
`except Exception` branch. -/
inductive Outcome where
  | success (feature : String)
  | insufficientFeatures
  | targetMissing
  | fileNotFound
  | genericError

/-- The main driver on an already-parsed table (lines 52-119): run
`load_data` — any exception it raises lands in the generic handler — then
branch on target presence in the matrix and on emptiness of the ranking. -/
noncomputable def runMain (t : Table) : Outcome :=
  match load_data t with
  | .error _ => .genericError
  | .ok data =>
    match (corr_matrix data).lookup targetName with
    | none => .targetMissing
    | some _ =>
      match fat_corr_abs data with
      | [] => .insufficientFeatures
      | f :: _ => .success f.1

/-- Build a column of parsed numeric cells. -/
def numsCol (l : List ℚ) : List Val :=
  l.map Val.num

/-- Ten distinct target values inside (0, 50). -/
def oneToTen : List ℚ :=
  [1, 2, 3, 4, 5, 6, 7, 8, 9, 10]

/-- Ten distinct values, 49 down to 40 (pointwise 50 minus `oneToTen`) —
perfectly anticorrelated with `oneToTen`. -/
def fiftyMinus : List ℚ :=
  [49, 48, 47, 46, 45, 44, 43, 42, 41, 40]

/-- Two distinct values over ten rows (low cardinality). -/
def fives : List ℚ :=
  [1, 1, 1, 1, 1, 2, 2, 2, 2, 2]

/-- Input with a string column and the target: the string column is not
numeric dtype and must be dropped. -/
def exC1 : Table :=
  [("이름", List.replicate 10 (Val.str "회원")), (targetName, numsCol oneToTen)]

/-- The cleaned table `load_data` returns on `exC1`. -/
def exC1clean : NumTable :=
  [(targetName, oneToTen.map Option.some)]

/-- Input whose non-target columns tie in absolute correlation with the
target (coefficients -1 and +1): 나이 appears before 체중 in the table. -/
def ex2 : Table :=
  [("나이", numsCol fiftyMinus), ("체중", numsCol oneToTen), (targetName, numsCol oneToTen)]

/-- The cleaned table `load_data` returns on `ex2`. -/
def ex2clean : NumTable :=
  [("나이", fiftyMinus.map Option.some), ("체중", oneToTen.map Option.some),
    (targetName, oneToTen.map Option.some)]

/-- Input with a numeric column 악력 that is missing in the first row (ten
distinct values counting NaN, so it survives the cardinality filter). -/
def ex3 : Table :=
  [(targetName, numsCol oneToTen), ("악력", Val.na :: numsCol [2, 3, 4, 5, 6, 7, 8, 9, 10])]

/-- The cleaned table `load_data` returns on `ex3`: the 악력 column still
contains a missing value. -/
def ex3clean : NumTable :=
  [(targetName, oneToTen.map Option.some),
    ("악력", none :: [2, 3, 4, 5, 6, 7, 8, 9, 10].map Option.some)]

/-- Input whose header lacks the target column. -/
def ex4 : Table :=
  [("신장", numsCol oneToTen)]

/-- Input with an allow-listed low-cardinality column (나이) and a
non-allow-listed low-cardinality code column (등급코드). -/
def ex5 : Table :=
  [(targetName, numsCol oneToTen), ("나이", numsCol fives), ("등급코드", numsCol fives)]

/-- The cleaned table `load_data` returns on `ex5`: 나이 kept, 등급코드
dropped. -/
def ex5clean : NumTable :=
  [(targetName, oneToTen.map Option.some), ("나이", fives.map Option.some)]

/-- Input whose only column is the target. -/
def ex6 : Table :=
  [(targetName, numsCol oneToTen)]

/-- The cleaned table `load_data` returns on `ex6`. -/
def ex6clean : NumTable :=
  [(targetName, oneToTen.map Option.some)]

/-- Input whose target column has five distinct values: it is dropped by the
cardinality filter and the range filter then raises. -/
def ex10 : Table :=
  [(targetName, numsCol [1, 2, 3, 4, 5]), ("체중", numsCol [1, 2, 3, 4, 5])]

/-- A two-column cleaned table used to instantiate the matrix properties. -/
def exC8 : NumTable :=
  [("X", [some 0, some 1]), ("Y", [some 1, some 0])]

/-- Association-list lookup commutes with mapping over stored values. -/
theorem lookup_map_val {β γ : Type} (f : β → γ) (k : String) :
    ∀ l : List (String × β),
      (l.map (fun p => (p.1, f p.2))).lookup k = (l.lookup k).map f
  | [] => rfl
  | (a, b) :: xs => by
    by_cases h : k == a
    · simp [List.lookup, h]
    · simp only [List.map_cons, List.lookup, h]
      exact lookup_map_val f k xs

/-- Every element surviving a boolean-mask selection whose mask is the
pointwise predicate of the same list satisfies the predicate. -/
theorem mem_maskFilter_map_self {p : α → Bool} :
    ∀ {l : List α} {v : α}, v ∈ maskFilter (l.map p) l → p v = true := by
  intro l
  induction l with
  | nil => intro v h; simp [maskFilter] at h
  | cons a l ih =>
    intro v h
    simp only [maskFilter, List.map_cons, List.zip_cons_cons, List.filterMap_cons] at h
    by_cases hp : p a
    · rw [if_pos (by simp [hp])] at h
      rcases List.mem_cons.mp h with rfl | h2
      · exact hp
      · exact ih h2
    · rw [if_neg (by simp [hp])] at h
      exact ih h

/-- Anatomy of a successful `load_data` run. -/
theorem load_data_eq_ok {t : Table} {c : NumTable} (h : load_data t = .ok c) :
    ∃ tvals tvals2,
      t.lookup targetName = some tvals ∧
      (keptCols t).lookup targetName = some tvals2 ∧
      c = (keptCols t).map (fun k => (k.1, maskFilter (tvals2.map inRange) k.2)) := by
  unfold load_data at h
  cases h1 : t.lookup targetName with
  | none => rw [h1] at h; exact absurd h (by simp)
  | some tvals =>
    rw [h1] at h
    cases h2 : (keptCols t).lookup targetName with
    | none => rw [h2] at h; exact absurd h (by simp)
    | some tvals2 =>
      rw [h2] at h
      exact ⟨tvals, tvals2, rfl, rfl, (Except.ok.injEq _ _).mp h.symm⟩

/-- The target column of a successful `load_data` output, with its
range-filter mask already established. -/
theorem load_data_target_vals {t : Table} {c : NumTable} (h : load_data t = .ok c) :
    ∃ tv, c.lookup targetName = some tv ∧ ∀ v ∈ tv, inRange v = true := by
  obtain ⟨tvals, tvals2, _, h2, rfl⟩ := load_data_eq_ok h
  refine ⟨maskFilter (tvals2.map inRange) tvals2, ?_, ?_⟩
  · rw [lookup_map_val (fun vs => maskFilter (tvals2.map inRange) vs) targetName (keptCols t), h2]
    rfl
  · intro v hv
    exact mem_maskFilter_map_self hv

/-- C1: for every input table on which `load_data` returns a Cleaned table,
every column of the Cleaned table stems from a numeric-dtype input column
(so every surviving column is numeric), and every value of the target
(body-fat) column is strictly greater than 0 and strictly less than 50. -/
theorem C1_cleaned_numeric_target_range {t : Table} {c : NumTable}
    (h : load_data t = .ok c) :
    (∀ col ∈ c, ∃ c0 ∈ t, c0.1 = col.1 ∧ c0.2.all isNumVal = true) ∧
    ∃ tv, c.lookup targetName = some tv ∧
      ∀ v ∈ tv, ∃ q : ℚ, v = some q ∧ 0 < q ∧ q < 50 := by
  constructor
  · intro col hcol
    obtain ⟨tvals, tvals2, h1, h2, rfl⟩ := load_data_eq_ok h
    obtain ⟨k, hk, rfl⟩ := List.mem_map.mp hcol
    have hk2 : k ∈ numericDropped t := (List.mem_filter.mp hk).1
    unfold numericDropped at hk2
    rw [h1] at hk2
    obtain ⟨c0, hc0, rfl⟩ := List.mem_map.mp hk2
    have hc0' := List.mem_filter.mp hc0
    exact ⟨c0, hc0'.1, rfl, hc0'.2⟩
  · obtain ⟨tv, htv, hall⟩ := load_data_target_vals h
    refine ⟨tv, htv, fun v hv => ?_⟩
    have hx := hall v hv
    cases v with
    | none => simp [inRange] at hx
    | some q =>
      simp only [inRange, Bool.and_eq_true, decide_eq_true_eq] at hx
      exact ⟨q, rfl, hx.1, hx.2⟩

/-- Witness for C1 at the concrete input `exC1`. -/
theorem C1_witness :
    load_data exC1 = .ok exC1clean ∧
    ((∀ col ∈ exC1clean, ∃ c0 ∈ exC1, c0.1 = col.1 ∧ c0.2.all isNumVal = true) ∧
      ∃ tv, exC1clean.lookup targetName = some tv ∧
        ∀ v ∈ tv, ∃ q : ℚ, v = some q ∧ 0 < q ∧ q < 50) :=
  ⟨rfl, C1_cleaned_numeric_target_range rfl⟩

/-- C3 counterexample: on `ex3` the Cleaned table is returned with a missing
value still inside the numeric column 악력 — `dropna` is applied to the
target column only, so cleaning does not remove all missing numeric values. -/
theorem C3_counterexample :
    load_data ex3 = .ok ex3clean ∧ none ∈ ((ex3clean.lookup "악력").getD []) :=
  ⟨rfl, by decide⟩

/-- C3 (amended): the Cleaned table contains no missing values in the target
column (other columns may keep missing values, so pairwise-complete
correlation can use fewer than all rows for pairs involving them). -/
theorem C3_amended_target_complete {t : Table} {c : NumTable} {tv : List (Option ℚ)}
    (h : load_data t = .ok c) (htv : c.lookup targetName = some tv) :
    ∀ v ∈ tv, v ≠ none := by
  obtain ⟨tv2, htv2, hall⟩ := load_data_target_vals h
  rw [htv] at htv2
  injection htv2 with he
  subst he
  intro v hv hnone
  subst hnone
  have hx := hall none hv
  simp [inRange] at hx

/-- Witness for the amended C3 at the concrete input `ex3`. -/
theorem C3_witness :
    load_data ex3 = .ok ex3clean ∧
    ex3clean.lookup targetName = some (oneToTen.map Option.some) ∧
    ∀ v ∈ oneToTen.map Option.some, v ≠ none :=
  ⟨rfl, rfl, @C3_amended_target_complete ex3 ex3clean (oneToTen.map Option.some) rfl rfl⟩

/-- C4 counterexample: on an input without the target column, the page shows
the generic unexpected-error banner (the `KeyError` from `dropna` is caught
by `except Exception`), not the `TargetColumnMissing` banner. -/
theorem C4_counterexample :
    runMain ex4 = .genericError ∧ Outcome.genericError ≠ Outcome.targetMissing :=
  ⟨rfl, fun h => nomatch h⟩

/-- C4 (amended): when the header lacks the target column, `load_data`
raises its `KeyError` already at the `dropna` step and the generic top-level
exception handler — not the Ranker's `TargetColumnMissing` branch — reports
the failure. -/
theorem C4_amended_generic_handler {t : Table} (h : t.lookup targetName = none) :
    load_data t = .error .dropnaKeyError ∧ runMain t = .genericError := by
  have h1 : load_data t = .error .dropnaKeyError := by unfold load_data; rw [h]
  refine ⟨h1, ?_⟩
  unfold runMain
  rw [h1]

/-- Witness for the amended C4 at the concrete input `ex4`. -/
theorem C4_witness :
    ex4.lookup targetName = none ∧ load_data ex4 = .error .dropnaKeyError ∧
      runMain ex4 = .genericError :=
  ⟨rfl, (@C4_amended_generic_handler ex4 rfl).1, (@C4_amended_generic_handler ex4 rfl).2⟩

/-- C5: the Cleaned table's columns are exactly the numeric columns
surviving the cardinality step, and a numeric column survives that step iff
it has at least 10 distinct values or its name is allow-listed. -/
theorem C5_cardinality_allowlist {t : Table} {c : NumTable} (h : load_data t = .ok c) :
    c.map Prod.fst = (keptCols t).map Prod.fst ∧
    ∀ col ∈ numericDropped t,
      (col ∈ keptCols t ↔ (10 ≤ distinctCount col.2 ∨ col.1 ∈ allowNames)) := by
  constructor
  · obtain ⟨_, _, _, _, rfl⟩ := load_data_eq_ok h
    simp
  · intro col hcol
    unfold keptCols
    rw [List.mem_filter]
    simp only [hcol, true_and]
    unfold keepCol
    rw [decide_eq_true_eq]
    constructor
    · intro hk
      by_cases hm : col.1 ∈ allowNames
      · exact Or.inr hm
      · exact Or.inl (le_of_not_lt fun hlt => hk ⟨hlt, hm⟩)
    · rintro (h10 | hm) ⟨hlt, hnm⟩
      · omega
      · exact hnm hm

/-- Witness for C5 at the concrete input `ex5`: the allow-listed
low-cardinality column 나이 survives, the code column 등급코드 is dropped. -/
theorem C5_witness :
    load_data ex5 = .ok ex5clean ∧
    (ex5clean.map Prod.fst = (keptCols ex5).map Prod.fst ∧
      ∀ col ∈ numericDropped ex5,
        (col ∈ keptCols ex5 ↔ (10 ≤ distinctCount col.2 ∨ col.1 ∈ allowNames))) :=
  ⟨rfl, C5_cardinality_allowlist rfl⟩

/-- C9: both stages are pure functions of their inputs in this embedding
(the `st.cache_data` cache only memoises a function that, as modelled, has
no hidden state), so repeated calls agree by reflexivity. -/
theorem C9_deterministic (t : Table) (c : NumTable) :
    load_data t = load_data t ∧ fat_corr_abs c = fat_corr_abs c :=
  ⟨rfl, rfl⟩

/-- C10: on `ex10` the target column is present in the input but has five
distinct values, so the cardinality step drops it (its name is not
allow-listed) and the range-filter step then raises a `KeyError` instead of
returning a Cleaned table. -/
theorem C10_target_lowcard_raises :
    (ex10.lookup targetName).isSome = true ∧
    distinctCount (((numericDropped ex10).lookup targetName).getD []) < 10 ∧
    targetName ∉ (keptCols ex10).map Prod.fst ∧
    load_data ex10 = .error .filterKeyError :=
  ⟨rfl, by decide, by decide, rfl⟩

/-- Swapping the two columns swaps the pairwise-complete observations. -/
theorem obsPairs_swap : ∀ xs ys : List (Option ℚ),
    obsPairs ys xs = (obsPairs xs ys).map (fun p => (p.2, p.1))
  | [], [] => rfl
  | [], x :: _ => by cases x <;> rfl
  | x :: _, [] => by cases x <;> rfl
  | some a :: xs, some b :: ys => by
    simp only [obsPairs, List.map_cons]
    exact congrArg _ (obsPairs_swap xs ys)
  | some _ :: xs, none :: ys => obsPairs_swap xs ys
  | none :: xs, some _ :: ys => obsPairs_swap xs ys
  | none :: xs, none :: ys => obsPairs_swap xs ys

/-- Self-pairing keeps exactly the present values, duplicated. -/
theorem obsPairs_self : ∀ xs : List (Option ℚ),
    obsPairs xs xs = (xs.filterMap id).map (fun a => (a, a))
  | [] => rfl
  | some a :: xs => by
    simp only [obsPairs, List.filterMap_cons, id, List.map_cons]
    exact congrArg _ (obsPairs_self xs)
  | none :: xs => by
    simp only [obsPairs, List.filterMap_cons, id]
    exact obsPairs_self xs

/-- A zipped sum of a binary function as an indexed sum. -/
theorem zipWith_sum_eq (f : ℚ → ℚ → ℚ) :
    ∀ u v : List ℚ,
      (List.zipWith f u v).sum =
        ∑ i ∈ Finset.range (min u.length v.length), f (u.getD i 0) (v.getD i 0)
  | [], v => by simp
  | _ :: _, [] => by simp
  | a :: u, b :: v => by
    simp only [List.zipWith_cons_cons, List.sum_cons, List.length_cons]
    rw [Nat.succ_min_succ, Finset.sum_range_succ']
    simp only [List.getD_cons_succ, List.getD_cons_zero]
    rw [zipWith_sum_eq f u v]
    ring

/-- The Pearson numerator as an indexed sum. -/
theorem covF_eq_finset (u v : List ℚ) :
    covF u v = ∑ i ∈ Finset.range (min u.length v.length),
      (u.getD i 0 - lmean u) * (v.getD i 0 - lmean v) :=
  zipWith_sum_eq _ u v

/-- The Pearson numerator is symmetric. -/
theorem covF_comm (u v : List ℚ) : covF u v = covF v u := by
  rw [covF_eq_finset, covF_eq_finset, min_comm]
  exact Finset.sum_congr rfl fun i _ => mul_comm _ _

/-- The variance sum is a sum of squares. -/
theorem varF_eq_sum_sq (u : List ℚ) :
    varF u = ∑ i ∈ Finset.range u.length, (u.getD i 0 - lmean u) ^ 2 := by
  unfold varF
  rw [covF_eq_finset, min_self]
  exact Finset.sum_congr rfl fun i _ => (pow_two _).symm

/-- The variance sum is nonnegative. -/
theorem varF_nonneg (u : List ℚ) : 0 ≤ varF u := by
  rw [varF_eq_sum_sq]
  exact Finset.sum_nonneg fun i _ => sq_nonneg _

/-- Cauchy–Schwarz for the Pearson numerator and variances. -/
theorem covF_sq_le (u v : List ℚ) (h : u.length = v.length) :
    covF u v ^ 2 ≤ varF u * varF v := by
  rw [covF_eq_finset, varF_eq_sum_sq, varF_eq_sum_sq, h, min_self]
  exact Finset.sum_mul_sq_le_sq_mul_sq _ _ _

/-- Pearson correlation is symmetric in its two columns. -/
theorem pearson_comm (xs ys : List (Option ℚ)) : pearson xs ys = pearson ys xs := by
  simp only [pearson]
  rw [obsPairs_swap xs ys]
  simp only [List.map_map]
  have h1 : (Prod.fst ∘ fun p : ℚ × ℚ => (p.2, p.1)) = Prod.snd := rfl
  have h2 : (Prod.snd ∘ fun p : ℚ × ℚ => (p.2, p.1)) = Prod.fst := rfl
  rw [h1, h2]
  exact if_congr or_comm rfl (by rw [covF_comm, mul_comm])

/-- A defined Pearson coefficient lies in [-1, 1]. -/
theorem pearson_mem_Icc {xs ys : List (Option ℚ)} {r : ℝ} (h : pearson xs ys = some r) :
    -1 ≤ r ∧ r ≤ 1 := by
  simp only [pearson] at h
  set u := (obsPairs xs ys).map Prod.fst with hu
  set v := (obsPairs xs ys).map Prod.snd with hv
  by_cases hz : varF u = 0 ∨ varF v = 0
  · rw [if_pos hz] at h
    exact absurd h (by simp)
  · rw [if_neg hz] at h
    push_neg at hz
    injection h with hr
    subst hr
    have hul : (0 : ℚ) < varF u := lt_of_le_of_ne (varF_nonneg u) (Ne.symm hz.1)
    have hvl : (0 : ℚ) < varF v := lt_of_le_of_ne (varF_nonneg v) (Ne.symm hz.2)
    have hu' : (0 : ℝ) < ((varF u : ℚ) : ℝ) := by exact_mod_cast hul
    have hv' : (0 : ℝ) < ((varF v : ℚ) : ℝ) := by exact_mod_cast hvl
    have hlen : u.length = v.length := by simp [hu, hv]
    have hcs : ((covF u v : ℚ) : ℝ) ^ 2 ≤ ((varF u : ℚ) : ℝ) * ((varF v : ℚ) : ℝ) := by
      exact_mod_cast covF_sq_le u v hlen
    have hd : (0 : ℝ) < Real.sqrt ((varF u : ℚ) : ℝ) * Real.sqrt ((varF v : ℚ) : ℝ) :=
      mul_pos (Real.sqrt_pos.mpr hu') (Real.sqrt_pos.mpr hv')
    refine abs_le.mp ?_
    rw [abs_div, abs_of_pos hd, div_le_one hd]
    calc |((covF u v : ℚ) : ℝ)|
        = Real.sqrt (((covF u v : ℚ) : ℝ) ^ 2) := (Real.sqrt_sq_eq_abs _).symm
      _ ≤ Real.sqrt (((varF u : ℚ) : ℝ) * ((varF v : ℚ) : ℝ)) := Real.sqrt_le_sqrt hcs
      _ = Real.sqrt ((varF u : ℚ) : ℝ) * Real.sqrt ((varF v : ℚ) : ℝ) :=
          Real.sqrt_mul (le_of_lt hu') _

/-- Self-correlation is exactly 1 for a column of nonzero variance. -/
theorem pearson_self {xs : List (Option ℚ)} (h : varF (xs.filterMap id) ≠ 0) :
    pearson xs xs = some 1 := by
  simp only [pearson]
  rw [obsPairs_self]
  simp only [List.map_map]
  have h1 : (Prod.fst ∘ fun a : ℚ => (a, a)) = id := rfl
  have h2 : (Prod.snd ∘ fun a : ℚ => (a, a)) = id := rfl
  rw [h1, h2, List.map_id]
  rw [if_neg (by simpa using h)]
  have hge : (0 : ℝ) ≤ ((varF (xs.filterMap id) : ℚ) : ℝ) := by
    exact_mod_cast varF_nonneg _
  have hne : ((varF (xs.filterMap id) : ℚ) : ℝ) ≠ 0 := by exact_mod_cast h
  have hc : covF (xs.filterMap id) (xs.filterMap id) = varF (xs.filterMap id) := rfl
  rw [hc, Real.mul_self_sqrt hge, div_self hne]

/-- The matrix entry is the Pearson coefficient of the two looked-up
columns. -/
theorem matEntry_eq (c : NumTable) (X Y : String) :
    matEntry c X Y =
      (c.lookup X).bind (fun xv => (c.lookup Y).map (fun yv => pearson xv yv)) := by
  unfold matEntry corr_matrix
  rw [lookup_map_val (fun xv => c.map (fun y => (y.1, pearson xv y.2))) X c]
  cases c.lookup X with
  | none => rfl
  | some xv =>
    show (c.map (fun y => (y.1, pearson xv y.2))).lookup Y = (c.lookup Y).map (pearson xv)
    exact lookup_map_val (fun yv => pearson xv yv) Y c

/-- C8: the correlation matrix is symmetric, every defined coefficient lies
in [-1, 1], and the diagonal entry of a column with nonzero variance is
exactly 1. -/
theorem C8_matrix_symmetric_bounded_diag (c : NumTable) (X Y : String) :
    matEntry c X Y = matEntry c Y X ∧
    (∀ r : ℝ, matEntry c X Y = some (some r) → -1 ≤ r ∧ r ≤ 1) ∧
    (varAt c X ≠ 0 → matEntry c X X = some (some 1)) := by
  refine ⟨?_, ?_, ?_⟩
  · rw [matEntry_eq, matEntry_eq]
    cases c.lookup X with
    | none => cases c.lookup Y <;> rfl
    | some xv =>
      cases c.lookup Y with
      | none => rfl
      | some yv =>
        show some (pearson xv yv) = some (pearson yv xv)
        exact congrArg _ (pearson_comm xv yv)
  · intro r hr
    rw [matEntry_eq] at hr
    cases hx : c.lookup X with
    | none => rw [hx] at hr; exact absurd hr (by simp)
    | some xv =>
      rw [hx] at hr
      cases hy : c.lookup Y with
      | none => rw [hy] at hr; exact absurd hr (by simp)
      | some yv =>
        rw [hy] at hr
        have : pearson xv yv = some r := by
          injection hr
        exact pearson_mem_Icc this
  · intro hvar
    unfold varAt at hvar
    rw [matEntry_eq]
    cases hx : c.lookup X with
    | none =>
      rw [hx] at hvar
      exact absurd rfl hvar
    | some xv =>
      rw [hx] at hvar
      simp only [Option.getD_some] at hvar
      show some (pearson xv xv) = some (some 1)
      exact congrArg _ (pearson_self hvar)

/-- Witness for C8 at the concrete two-column table `exC8`. -/
theorem C8_witness :
    matEntry exC8 "X" "Y" = matEntry exC8 "Y" "X" ∧
    (-1 ≤ ((covF [0, 1] [1, 0] : ℚ) : ℝ) /
        (Real.sqrt ((varF [0, 1] : ℚ) : ℝ) * Real.sqrt ((varF [1, 0] : ℚ) : ℝ)) ∧
      ((covF [0, 1] [1, 0] : ℚ) : ℝ) /
        (Real.sqrt ((varF [0, 1] : ℚ) : ℝ) * Real.sqrt ((varF [1, 0] : ℚ) : ℝ)) ≤ 1) ∧
    varAt exC8 "X" ≠ 0 ∧ matEntry exC8 "X" "X" = some (some 1) :=
  ⟨(C8_matrix_symmetric_bounded_diag exC8 "X" "Y").1,
    (C8_matrix_symmetric_bounded_diag exC8 "X" "Y").2.1 _ (by
      refine congrArg some ?_
      show (if varF [(0 : ℚ), 1] = 0 ∨ varF [(1 : ℚ), 0] = 0 then (none : Option ℝ)
          else some (((covF [0, 1] [1, 0] : ℚ) : ℝ) /
            (Real.sqrt ((varF [0, 1] : ℚ) : ℝ) * Real.sqrt ((varF [1, 0] : ℚ) : ℝ)))) =
        some (((covF [0, 1] [1, 0] : ℚ) : ℝ) /
          (Real.sqrt ((varF [0, 1] : ℚ) : ℝ) * Real.sqrt ((varF [1, 0] : ℚ) : ℝ)))
      rw [if_neg]
      push_neg
      constructor <;>
        norm_num [varF, covF, lmean, List.zipWith_cons_cons, List.sum_cons, List.sum_nil]),
    by
      show varF [(0 : ℚ), 1] ≠ 0
      norm_num [varF, covF, lmean, List.zipWith_cons_cons, List.sum_cons, List.sum_nil],
    (C8_matrix_symmetric_bounded_diag exC8 "X" "X").2.2 (by
      show varF [(0 : ℚ), 1] ≠ 0
      norm_num [varF, covF, lmean, List.zipWith_cons_cons, List.sum_cons, List.sum_nil])⟩

/-- Key equivalence is reflexive. -/
theorem keyEqv_refl (a : Option ℝ) : keyEqv a a :=
  match a with
  | some _ => rfl
  | none => trivial

/-- Key equivalence is symmetric. -/
theorem keyEqv_symm (a b : Option ℝ) (h : keyEqv a b) : keyEqv b a :=
  match a, b with
  | some _, some _ => h.symm
  | none, none => trivial
  | some _, none => h.elim
  | none, some _ => h.elim

/-- Key equivalence is transitive. -/
theorem keyEqv_trans (a b c : Option ℝ) (h1 : keyEqv a b) (h2 : keyEqv b c) : keyEqv a c :=
  match a, b, c with
  | some _, some _, some _ => h1.trans h2
  | none, none, none => trivial
  | some _, none, _ => h1.elim
  | none, some _, _ => h1.elim
  | some _, some _, none => h2.elim
  | none, none, some _ => h2.elim

/-- Equivalent keys are not strictly ordered. -/
theorem keyEqv_not_keyLt (a b : Option ℝ) (h : keyEqv a b) : ¬ keyLt b a :=
  match a, b with
  | some x, some y => fun hlt => absurd hlt (by
      have he : x = y := h
      subst he
      exact lt_irrefl x)
  | none, none => fun hlt => hlt.elim
  | some _, none => h.elim
  | none, some _ => h.elim

/-- Any two keys are strictly ordered one way or equivalent. -/
theorem keyLt_trichotomy (a b : Option ℝ) : keyLt a b ∨ keyLt b a ∨ keyEqv a b :=
  match a, b with
  | none, none => Or.inr (Or.inr trivial)
  | none, some _ => Or.inr (Or.inl trivial)
  | some _, none => Or.inl trivial
  | some x, some y => by
    rcases lt_trichotomy y x with h | h | h
    · exact Or.inl h
    · exact Or.inr (Or.inr h.symm)
    · exact Or.inr (Or.inl h)

/-- The strict key order is transitive. -/
theorem keyLt_trans (a b c : Option ℝ) (h1 : keyLt a b) (h2 : keyLt b c) : keyLt a c :=
  match a, b, c with
  | some _, some _, some _ => lt_trans h2 h1
  | some _, some _, none => trivial
  | some _, none, _ => h2.elim
  | none, _, _ => h1.elim

/-- Strict order followed by equivalence. -/
theorem keyLt_keyEqv_trans (a b c : Option ℝ) (h1 : keyLt a b) (h2 : keyEqv b c) : keyLt a c :=
  match a, b, c with
  | some x, some y, some z => by
    have he : y = z := h2
    exact he ▸ h1
  | some _, some _, none => h2.elim
  | some _, none, some _ => h2.elim
  | some _, none, none => trivial
  | none, _, _ => h1.elim

/-- Equivalence followed by strict order. -/
theorem keyEqv_keyLt_trans (a b c : Option ℝ) (h1 : keyEqv a b) (h2 : keyLt b c) : keyLt a c :=
  match a, b, c with
  | some x, some y, some z => by
    have he : x = y := h1
    exact he ▸ h2
  | some x, some y, none => trivial
  | some _, none, _ => h1.elim
  | none, none, _ => h2.elim
  | none, some _, _ => h1.elim

instance : IsTrans (ℕ × (String × Option ℝ)) sRel :=
  ⟨by
    rintro a b c (h1 | ⟨h1, h1i⟩) (h2 | ⟨h2, h2i⟩)
    · exact Or.inl (keyLt_trans _ _ _ h1 h2)
    · exact Or.inl (keyLt_keyEqv_trans _ _ _ h1 h2)
    · exact Or.inl (keyEqv_keyLt_trans _ _ _ h1 h2)
    · exact Or.inr ⟨keyEqv_trans _ _ _ h1 h2, le_trans h1i h2i⟩⟩

instance : IsTotal (ℕ × (String × Option ℝ)) sRel :=
  ⟨by
    intro a b
    rcases keyLt_trichotomy a.2.2 b.2.2 with h | h | h
    · exact Or.inl (Or.inl h)
    · exact Or.inr (Or.inl h)
    · rcases le_total a.1 b.1 with hi | hi
      · exact Or.inl (Or.inr ⟨h, hi⟩)
      · exact Or.inr (Or.inr ⟨keyEqv_symm _ _ h, hi⟩)⟩

/-- The stable sort permutes its input series. -/
theorem sortSeries_perm (s : List (String × Option ℝ)) : (sortSeries s).Perm s := by
  unfold sortSeries
  have h1 : (((List.range s.length).zip s).insertionSort sRel).Perm ((List.range s.length).zip s) :=
    List.perm_insertionSort _ _
  have h2 := h1.map Prod.snd
  rwa [List.map_snd_zip _ _ (by simp)] at h2

/-- The sorted series is pairwise ordered under the non-strict key order. -/
theorem sortSeries_pairwise_keyLe (s : List (String × Option ℝ)) :
    List.Pairwise (fun a b => keyLe a.2 b.2) (sortSeries s) := by
  unfold sortSeries
  have hs : List.Sorted sRel (((List.range s.length).zip s).insertionSort sRel) :=
    List.sorted_insertionSort sRel _
  exact List.Pairwise.map Prod.snd (fun a b h => h.imp id And.left) hs

/-- A non-strict key bound out of `none` forces `none`. -/
theorem keyLe_none_left (a b : Option ℝ) (h : keyLe a b) (ha : a = none) : b = none := by
  subst ha
  rcases h with h | h
  · exact h.elim
  · cases b with
    | none => rfl
    | some x => exact h.elim

/-- C7: the Ranking is pairwise sorted by non-increasing absolute
coefficient — in particular every adjacent pair (a, b) satisfies
|coef a| ≥ |coef b| — and every undefined (NaN) coefficient appears after
all defined ones. -/
theorem C7_ranking_sorted (c : NumTable) :
    List.Pairwise (fun a b => keyLe a.2 b.2) (fat_corr_abs c) ∧
    List.Pairwise (fun a b => a.2 = none → b.2 = none) (fat_corr_abs c) := by
  have h : List.Pairwise (fun a b => keyLe a.2 b.2) (fat_corr_abs c) := by
    unfold fat_corr_abs
    exact List.Pairwise.sublist (List.filter_sublist _) (sortSeries_pairwise_keyLe _)
  exact ⟨h, h.imp fun hab ha => keyLe_none_left _ _ hab ha⟩

/-- A successful lookup implies the key occurs among the stored keys. -/
theorem lookup_some_mem {β : Type} {k : String} :
    ∀ {l : List (String × β)} {v : β}, l.lookup k = some v → k ∈ l.map Prod.fst := by
  intro l
  induction l with
  | nil => intro v h; exact absurd h (by simp [List.lookup])
  | cons a l ih =>
    intro v h
    obtain ⟨a1, a2⟩ := a
    simp only [List.lookup] at h
    by_cases hk : k == a1
    · simp only [List.map_cons]
      exact List.mem_cons.mpr (Or.inl (eq_of_beq hk))
    · rw [Bool.not_eq_true] at hk
      rw [hk] at h
      simp only [List.map_cons]
      exact List.mem_cons.mpr (Or.inr (ih h))

/-- Entries not labelled `k` plus occurrences of `k` account for all
entries of an association list. -/
theorem countP_ne_add_count {β : Type} (k : String) :
    ∀ l : List (String × β),
      l.countP (fun p => p.1 != k) + (l.map Prod.fst).count k = l.length := by
  intro l
  induction l with
  | nil => rfl
  | cons a l ih =>
    rw [List.countP_cons, List.map_cons, List.count_cons, List.length_cons]
    by_cases h : a.1 = k
    · rw [if_neg (by rw [h]; simp), if_pos (by rw [h]; simp)]
      omega
    · rw [if_pos (bne_iff_ne.mpr h), if_neg (fun hb => h (eq_of_beq hb))]
      omega

/-- The matrix row lookup for the target column, when present. -/
theorem corr_matrix_lookup {c : NumTable} {xv : List (Option ℚ)}
    (hc : c.lookup targetName = some xv) :
    (corr_matrix c).lookup targetName =
      some (c.map (fun y => (y.1, pearson xv y.2))) := by
  unfold corr_matrix
  rw [lookup_map_val (fun xv2 => c.map (fun y => (y.1, pearson xv2 y.2))) targetName c, hc]
  rfl

/-- The target's series, when the target column is present. -/
theorem targetRow_eq {c : NumTable} {xv : List (Option ℚ)}
    (hc : c.lookup targetName = some xv) :
    targetRow c = c.map (fun y => (y.1, pearson xv y.2)) := by
  unfold targetRow
  rw [corr_matrix_lookup hc]
  rfl

/-- C6: for every input with unique column labels on which `load_data`
succeeds, the Ranking excludes the target column and has length (numeric
column count − 1); it is empty exactly when the Cleaned table has the
target as its single column, and then the page signals the
InsufficientFeatures banner. -/
theorem C6_ranking_length {t : Table} {c : NumTable}
    (hnd : (t.map Prod.fst).Nodup) (h : load_data t = .ok c) :
    (fat_corr_abs c).length = c.length - 1 ∧
    ((fat_corr_abs c = []) ↔ c.length = 1) ∧
    (fat_corr_abs c = [] → runMain t = .insufficientFeatures) := by
  obtain ⟨tv, hc, _⟩ := load_data_target_vals h
  have hnames : c.map Prod.fst = (keptCols t).map Prod.fst := by
    obtain ⟨_, _, _, _, rfl⟩ := load_data_eq_ok h
    simp
  have hsub : (c.map Prod.fst).Sublist (t.map Prod.fst) := by
    rw [hnames]
    have h1 : ((keptCols t).map Prod.fst).Sublist ((numericDropped t).map Prod.fst) :=
      (List.filter_sublist _).map Prod.fst
    have h2 : ((numericDropped t).map Prod.fst).Sublist (t.map Prod.fst) := by
      unfold numericDropped
      cases ht : t.lookup targetName with
      | none => simp
      | some tvals =>
        simp only [List.map_map]
        have hcomp : (Prod.fst ∘ fun c0 : String × List Val =>
            (c0.1, maskFilter (tvals.map isPresent) (c0.2.map toONum))) = Prod.fst := rfl
        rw [hcomp]
        exact (List.filter_sublist _).map Prod.fst
    exact h1.trans h2
  have hcnd : (c.map Prod.fst).Nodup := hsub.nodup hnd
  have hmem : targetName ∈ c.map Prod.fst := lookup_some_mem hc
  have hcount : (c.map Prod.fst).count targetName = 1 :=
    List.count_eq_one_of_mem hcnd hmem
  have hlen : (fat_corr_abs c).length = c.countP (fun y => y.1 != targetName) := by
    unfold fat_corr_abs fat_corr
    rw [← List.countP_eq_length_filter]
    rw [(sortSeries_perm ((sortSeries (targetRow c)).map absEnt)).countP_eq]
    rw [List.countP_map]
    show (sortSeries (targetRow c)).countP (fun p => p.1 != targetName) = _
    rw [(sortSeries_perm (targetRow c)).countP_eq]
    rw [targetRow_eq hc, List.countP_map]
    rfl
  have hsum := countP_ne_add_count targetName c
  rw [hcount] at hsum
  have hlen2 : (fat_corr_abs c).length = c.length - 1 := by omega
  have hpos : 0 < c.length := by
    cases c with
    | nil => simp at hmem
    | cons _ _ => simp
  have hiff : (fat_corr_abs c = []) ↔ c.length = 1 := by
    rw [← List.length_eq_zero]
    omega
  refine ⟨hlen2, hiff, fun hempty => ?_⟩
  have hcm := corr_matrix_lookup hc
  simp only [runMain, h, hcm, hempty]

/-- Witness for C6 at the concrete single-column input `ex6`. -/
theorem C6_witness :
    (ex6.map Prod.fst).Nodup ∧ load_data ex6 = .ok ex6clean ∧
    ((fat_corr_abs ex6clean).length = ex6clean.length - 1 ∧
      ((fat_corr_abs ex6clean = []) ↔ ex6clean.length = 1) ∧
      (fat_corr_abs ex6clean = [] → runMain ex6 = .insufficientFeatures)) :=
  ⟨by decide, rfl, C6_ranking_length (by decide) rfl⟩

/-- Extract the ordered positions of a two-element sublist. -/
theorem pair_sublist_positions {α : Type} {a b : α} :
    ∀ {l : List α}, ([a, b]).Sublist l →
      ∃ (i : ℕ) (j : ℕ) (hi : i < l.length) (hj : j < l.length),
        i < j ∧ l.get ⟨i, hi⟩ = a ∧ l.get ⟨j, hj⟩ = b := by
  intro l h
  induction l with
  | nil => cases h
  | cons x l ih =>
    cases h with
    | cons _ h2 =>
      obtain ⟨i, j, hi, hj, hij, ha, hb⟩ := ih h2
      exact ⟨i + 1, j + 1, Nat.succ_lt_succ hi, Nat.succ_lt_succ hj, by omega, ha, hb⟩
    | cons₂ _ h2 =>
      have hb' : b ∈ l := List.singleton_sublist.mp h2
      obtain ⟨j, hj, hbe⟩ := List.getElem_of_mem hb'
      exact ⟨0, j + 1, by simp, Nat.succ_lt_succ hj, Nat.succ_pos j, rfl, hbe⟩

/-- Two positions in order give a two-element sublist. -/
theorem pair_sublist_of_positions {α : Type} :
    ∀ (l : List α) (i j : ℕ) (hij : i < j) (hj : j < l.length),
      ([l.get ⟨i, lt_trans hij hj⟩, l.get ⟨j, hj⟩]).Sublist l
  | [], _, _, _, hj => absurd hj (by simp)
  | a :: t, 0, j + 1, hij, hj =>
    List.Sublist.cons₂ a
      (List.singleton_sublist.mpr (List.get_mem t j (Nat.lt_of_succ_lt_succ hj)))
  | a :: t, i + 1, j + 1, hij, hj =>
    List.Sublist.cons a
      (pair_sublist_of_positions t i j (by omega) (Nat.lt_of_succ_lt_succ hj))
  | _ :: _, _ + 1, 0, hij, _ => absurd hij (by omega)

/-- Stability of the modelled sort: entries with equivalent keys keep their
original relative order, witnessed by ordered positions in the output. -/
theorem sortSeries_stable (s : List (String × Option ℝ)) (i j : ℕ)
    (hi : i < s.length) (hj : j < s.length) (hij : i < j)
    (heq : keyEqv (s.get ⟨i, hi⟩).2 (s.get ⟨j, hj⟩).2) :
    ∃ (p : ℕ) (q : ℕ) (hp : p < (sortSeries s).length) (hq : q < (sortSeries s).length),
      p < q ∧ (sortSeries s).get ⟨p, hp⟩ = s.get ⟨i, hi⟩ ∧
        (sortSeries s).get ⟨q, hq⟩ = s.get ⟨j, hj⟩ := by
  have hzl : ((List.range s.length).zip s).length = s.length := by simp
  have hwz : (((List.range s.length).zip s).insertionSort sRel).Perm
      ((List.range s.length).zip s) := List.perm_insertionSort _ _
  have hsort : List.Sorted sRel (((List.range s.length).zip s).insertionSort sRel) :=
    List.sorted_insertionSort sRel _
  have hzi : ((List.range s.length).zip s).get ⟨i, by omega⟩ = (i, s.get ⟨i, hi⟩) := by
    simp [List.getElem_zip]
  have hzj : ((List.range s.length).zip s).get ⟨j, by omega⟩ = (j, s.get ⟨j, hj⟩) := by
    simp [List.getElem_zip]
  have hmi : (i, s.get ⟨i, hi⟩) ∈ ((List.range s.length).zip s).insertionSort sRel := by
    refine hwz.symm.subset ?_
    rw [← hzi]
    exact List.get_mem _ _ _
  have hmj : (j, s.get ⟨j, hj⟩) ∈ ((List.range s.length).zip s).insertionSort sRel := by
    refine hwz.symm.subset ?_
    rw [← hzj]
    exact List.get_mem _ _ _
  obtain ⟨p, hp, hpe⟩ := List.getElem_of_mem hmi
  obtain ⟨q, hq, hqe⟩ := List.getElem_of_mem hmj
  have hpq : p < q := by
    rcases Nat.lt_trichotomy p q with hlt | heqpq | hgt
    · exact hlt
    · exfalso
      subst heqpq
      rw [hpe] at hqe
      have : i = j := congrArg Prod.fst hqe
      omega
    · exfalso
      have hrel : sRel ((((List.range s.length).zip s).insertionSort sRel).get ⟨q, hq⟩)
          ((((List.range s.length).zip s).insertionSort sRel).get ⟨p, hp⟩) :=
        List.pairwise_iff_get.mp hsort ⟨q, hq⟩ ⟨p, hp⟩ hgt
      rw [List.get_eq_getElem, List.get_eq_getElem, hpe, hqe] at hrel
      rcases hrel with hlt | ⟨heqv, hle⟩
      · exact keyEqv_not_keyLt _ _ heq hlt
      · omega
  have hlen : (sortSeries s).length =
      (((List.range s.length).zip s).insertionSort sRel).length := by
    simp [sortSeries]
  refine ⟨p, q, by omega, by omega, hpq, ?_, ?_⟩
  · show (sortSeries s).get ⟨p, by omega⟩ = (i, s.get ⟨i, hi⟩).2
    unfold sortSeries
    simp only [List.get_eq_getElem, List.getElem_map]
    rw [hpe]
    rfl
  · show (sortSeries s).get ⟨q, by omega⟩ = (j, s.get ⟨j, hj⟩).2
    unfold sortSeries
    simp only [List.get_eq_getElem, List.getElem_map]
    rw [hqe]
    rfl

/-- C2 (amended): whenever two non-target entries tie in absolute
coefficient, they appear in the Ranking in the same relative order as in
`fat_corr` — the intermediate sort by descending signed coefficient — and
not necessarily in Cleaned-table column order. -/
theorem C2_amended_tie_order (c : NumTable) (a b : String × Option ℝ)
    (hab : ([a, b]).Sublist (fat_corr c))
    (heq : keyEqv (absEnt a).2 (absEnt b).2)
    (ha : a.1 ≠ targetName) (hb : b.1 ≠ targetName) :
    ([absEnt a, absEnt b]).Sublist (fat_corr_abs c) := by
  show ([absEnt a, absEnt b]).Sublist
    ((sortSeries ((fat_corr c).map absEnt)).filter (fun p => p.1 != targetName))
  obtain ⟨i, j, hi, hj, hij, hae, hbe⟩ := pair_sublist_positions hab
  simp only [List.get_eq_getElem] at hae hbe
  have hsl : ((fat_corr c).map absEnt).length = (fat_corr c).length := by simp
  have hsi : ((fat_corr c).map absEnt).get ⟨i, by omega⟩ = absEnt a := by
    simp only [List.get_eq_getElem, List.getElem_map]
    rw [hae]
  have hsj : ((fat_corr c).map absEnt).get ⟨j, by omega⟩ = absEnt b := by
    simp only [List.get_eq_getElem, List.getElem_map]
    rw [hbe]
  have heq2 : keyEqv (((fat_corr c).map absEnt).get ⟨i, by omega⟩).2
      (((fat_corr c).map absEnt).get ⟨j, by omega⟩).2 := by
    rw [hsi, hsj]
    exact heq
  obtain ⟨p, q, hp, hq, hpq, hpe, hqe⟩ :=
    sortSeries_stable ((fat_corr c).map absEnt) i j (by omega) (by omega) hij heq2
  have hpa : (sortSeries ((fat_corr c).map absEnt)).get ⟨p, hp⟩ = absEnt a := by
    rw [hpe, hsi]
  have hqb : (sortSeries ((fat_corr c).map absEnt)).get ⟨q, hq⟩ = absEnt b := by
    rw [hqe, hsj]
  have hpair := pair_sublist_of_positions (sortSeries ((fat_corr c).map absEnt)) p q hpq hq
  rw [hpa, hqb] at hpair
  have hfil := hpair.filter (fun p => p.1 != targetName)
  have hta : ((absEnt a).1 != targetName) = true := bne_iff_ne.mpr ha
  have htb : ((absEnt b).1 != targetName) = true := bne_iff_ne.mpr hb
  rw [List.filter_cons, if_pos hta, List.filter_cons, if_pos htb, List.filter_nil] at hfil
  exact hfil

/-- Self-correlation of the concrete target column evaluates to 1. -/
theorem pearson_oneToTen_self :
    pearson (oneToTen.map Option.some) (oneToTen.map Option.some) = some 1 := by
  show (if varF oneToTen = 0 ∨ varF oneToTen = 0 then (none : Option ℝ)
      else some ((covF oneToTen oneToTen : ℝ) /
        (Real.sqrt (varF oneToTen : ℝ) * Real.sqrt (varF oneToTen : ℝ)))) = some 1
  have hv : varF oneToTen = 165 / 2 := by
    norm_num [varF, covF, lmean, oneToTen, List.zipWith_cons_cons, List.zipWith_nil_right,
      List.sum_cons, List.sum_nil, List.length_cons, List.length_nil]
  rw [if_neg (by rw [hv]; norm_num)]
  rw [show covF oneToTen oneToTen = 165 / 2 from hv, hv]
  rw [Real.mul_self_sqrt (by positivity)]
  norm_num

/-- Correlation of the concrete target column with its mirrored column
evaluates to -1. -/
theorem pearson_oneToTen_fiftyMinus :
    pearson (oneToTen.map Option.some) (fiftyMinus.map Option.some) = some (-1) := by
  show (if varF oneToTen = 0 ∨ varF fiftyMinus = 0 then (none : Option ℝ)
      else some ((covF oneToTen fiftyMinus : ℝ) /
        (Real.sqrt (varF oneToTen : ℝ) * Real.sqrt (varF fiftyMinus : ℝ)))) = some (-1)
  have hu : varF oneToTen = 165 / 2 := by
    norm_num [varF, covF, lmean, oneToTen, List.zipWith_cons_cons, List.zipWith_nil_right,
      List.sum_cons, List.sum_nil, List.length_cons, List.length_nil]
  have hv : varF fiftyMinus = 165 / 2 := by
    norm_num [varF, covF, lmean, fiftyMinus, List.zipWith_cons_cons, List.zipWith_nil_right,
      List.sum_cons, List.sum_nil, List.length_cons, List.length_nil]
  have hc : covF oneToTen fiftyMinus = -(165 / 2) := by
    norm_num [covF, lmean, oneToTen, fiftyMinus, List.zipWith_cons_cons, List.zipWith_nil_right,
      List.sum_cons, List.sum_nil, List.length_cons, List.length_nil]
  rw [if_neg (by rw [hu, hv]; norm_num)]
  rw [hc, hu, hv]
  rw [Real.mul_self_sqrt (by positivity)]
  norm_num

/-- The target's correlation series on the cleaned `ex2` table. -/
theorem targetRow_ex2 :
    targetRow ex2clean = [("나이", some (-1)), ("체중", some 1), ("체지방율", some 1)] := by
  have h : targetRow ex2clean =
      [("나이", pearson (oneToTen.map Option.some) (fiftyMinus.map Option.some)),
        ("체중", pearson (oneToTen.map Option.some) (oneToTen.map Option.some)),
        ("체지방율", pearson (oneToTen.map Option.some) (oneToTen.map Option.some))] := rfl
  rw [h, pearson_oneToTen_fiftyMinus, pearson_oneToTen_self]

/-- The first (signed, descending) sort on the cleaned `ex2` table: the two
+1 entries come first, in position order, then the -1 entry. -/
theorem fat_corr_ex2 :
    fat_corr ex2clean = [("체중", some 1), ("체지방율", some 1), ("나이", some (-1))] := by
  unfold fat_corr
  rw [targetRow_ex2]
  show (([(0, ("나이", (some (-1) : Option ℝ))), (1, ("체중", some 1)),
      (2, ("체지방율", some 1))].insertionSort sRel).map Prod.snd) = _
  have hn1 : ¬ sRel (0, ("나이", (some (-1) : Option ℝ))) (1, ("체중", (some 1 : Option ℝ))) := by
    rintro (hlt | ⟨heqv, _⟩)
    · exact absurd (show (1 : ℝ) < -1 from hlt) (by norm_num)
    · exact absurd (show (-1 : ℝ) = 1 from heqv) (by norm_num)
  have hn2 : ¬ sRel (0, ("나이", (some (-1) : Option ℝ)))
      (2, ("체지방율", (some 1 : Option ℝ))) := by
    rintro (hlt | ⟨heqv, _⟩)
    · exact absurd (show (1 : ℝ) < -1 from hlt) (by norm_num)
    · exact absurd (show (-1 : ℝ) = 1 from heqv) (by norm_num)
  have hp12 : sRel (1, ("체중", (some 1 : Option ℝ))) (2, ("체지방율", (some 1 : Option ℝ))) :=
    Or.inr ⟨rfl, by omega⟩
  have h2 : List.orderedInsert sRel (1, ("체중", (some 1 : Option ℝ)))
      [(2, ("체지방율", some 1))] = [(1, ("체중", some 1)), (2, ("체지방율", some 1))] := by
    simp only [List.orderedInsert]
    rw [if_pos hp12]
  have h0 : List.orderedInsert sRel (0, ("나이", (some (-1) : Option ℝ)))
      [(1, ("체중", some 1)), (2, ("체지방율", some 1))] =
      [(1, ("체중", some 1)), (2, ("체지방율", some 1)), (0, ("나이", some (-1)))] := by
    simp only [List.orderedInsert]
    rw [if_neg hn1, if_neg hn2]
  simp only [List.insertionSort, List.orderedInsert_nil]
  rw [h2, h0]
  rfl

/-- The Ranking of the cleaned `ex2` table: 체중 before 나이. -/
theorem fat_corr_abs_ex2 :
    fat_corr_abs ex2clean = [("체중", some 1), ("나이", some 1)] := by
  show ((sortSeries ((fat_corr ex2clean).map absEnt)).filter
    (fun p => p.1 != targetName)) = _
  rw [fat_corr_ex2]
  have habs : ([("체중", (some 1 : Option ℝ)), ("체지방율", some 1),
      ("나이", some (-1))].map absEnt) =
      [("체중", some 1), ("체지방율", some 1), ("나이", some 1)] := by
    simp only [List.map_cons, List.map_nil, absEnt, Option.map_some']
    norm_num
  rw [habs]
  show (([(0, ("체중", (some 1 : Option ℝ))), (1, ("체지방율", some 1)),
      (2, ("나이", some 1))].insertionSort sRel).map Prod.snd).filter
    (fun p => p.1 != targetName) = _
  have gp12 : sRel (1, ("체지방율", (some 1 : Option ℝ))) (2, ("나이", (some 1 : Option ℝ))) :=
    Or.inr ⟨rfl, by omega⟩
  have g1 : List.orderedInsert sRel (1, ("체지방율", (some 1 : Option ℝ)))
      [(2, ("나이", some 1))] = [(1, ("체지방율", some 1)), (2, ("나이", some 1))] := by
    simp only [List.orderedInsert]
    rw [if_pos gp12]
  have gp01 : sRel (0, ("체중", (some 1 : Option ℝ))) (1, ("체지방율", (some 1 : Option ℝ))) :=
    Or.inr ⟨rfl, by omega⟩
  have g0 : List.orderedInsert sRel (0, ("체중", (some 1 : Option ℝ)))
      [(1, ("체지방율", some 1)), (2, ("나이", some 1))] =
      [(0, ("체중", some 1)), (1, ("체지방율", some 1)), (2, ("나이", some 1))] := by
    simp only [List.orderedInsert]
    rw [if_pos gp01]
  simp only [List.insertionSort, List.orderedInsert_nil]
  rw [g1, g0]
  rfl

/-- C2 counterexample: in the cleaned `ex2` table the columns 나이 and 체중
tie in absolute coefficient (|-1| = |1|) and 나이 precedes 체중 in the
Cleaned table, yet the Ranking lists 체중 before 나이: the stable tie-break
follows the intermediate signed sort, not Cleaned-table column order. -/
theorem C2_counterexample :
    load_data ex2 = .ok ex2clean ∧
    ex2clean.map Prod.fst = ["나이", "체중", "체지방율"] ∧
    targetRow ex2clean = [("나이", some (-1)), ("체중", some 1), ("체지방율", some 1)] ∧
    fat_corr_abs ex2clean = [("체중", some 1), ("나이", some 1)] ∧
    ¬ ([("나이", (some 1 : Option ℝ)), ("체중", some 1)]).Sublist (fat_corr_abs ex2clean) := by
  refine ⟨rfl, rfl, targetRow_ex2, fat_corr_abs_ex2, ?_⟩
  intro h
  rw [fat_corr_abs_ex2] at h
  obtain ⟨i, j, hi, hj, hij, hae, hbe⟩ := pair_sublist_positions h
  have hl : ([("체중", (some 1 : Option ℝ)), ("나이", some 1)]).length = 2 := rfl
  rw [hl] at hi hj
  have hi0 : i = 0 := by omega
  have hj1 : j = 1 := by omega
  subst hi0
  subst hj1
  have h2 : "체중" = "나이" := congrArg Prod.fst hae
  exact absurd h2 (by decide)

/-- Witness for the amended C2 at the concrete table `ex2clean`. -/
theorem C2_witness :
    ([absEnt ("체중", (some 1 : Option ℝ)), absEnt ("나이", some (-1))]).Sublist
      (fat_corr_abs ex2clean) :=
  C2_amended_tie_order ex2clean ("체중", some 1) ("나이", some (-1))
    (by
      rw [fat_corr_ex2]
      exact List.Sublist.cons₂ _ (List.Sublist.cons _
        (List.Sublist.cons₂ _ List.Sublist.slnil)))
    (by
      show keyEqv (some |(1 : ℝ)|) (some |(-1 : ℝ)|)
      show |(1 : ℝ)| = |(-1 : ℝ)|
      norm_num)
    (by decide) (by decide)
